import Mathlib

/-
Verification development for the Image_Patch_Extractor repository.

The definitions below are a shallow embedding of the Python source:
  - `src/app/domain/patch_extractor.py` (coordinate generation and patch
    extraction for one image/mask pair),
  - `src/app/domain/pairing.py` (stem-based image/mask pairing),
  - `src/app/services/runner.py` (the batch runner loop).

Modelling conventions:
  - Python ints that are nonnegative throughout the relevant code paths are
    modelled as `Nat`.  Where Python subtraction could go negative, the guards
    in the source (`H > ph`, `max(1, ...)`) make truncated `Nat` subtraction
    agree with the Python value; this is noted at each definition.
  - Floating point means and thresholds are modelled with exact rationals
    (`ℚ`); the code only ever forms means of 0/1 values.
  - Python's `sorted` (on tuples and on path strings) is modelled with
    `List.insertionSort`, which is stable and produces the same sorted output.
  - `random.shuffle` is modelled by an explicit `shuffle` function parameter;
    theorems that depend on it being a permutation take that as a hypothesis.
  - Filesystem contents (glob results, loaded images) are modelled as explicit
    inputs; writes and signal emissions of the runner are modelled as an
    explicit event trace.
-/

namespace ImagePatch

/-! ## Coordinate generation: `iter_patch_coords`
(src/app/domain/patch_extractor.py lines 49-79) -/

/-- Model of Python `range(0, stop, stride)` for `stop ≥ 0`: the multiples
`k * stride` for `k < ⌈stop / stride⌉`.  For `stride = 0` (which raises in
Python) it returns the empty list; all theorems assume `1 ≤ stride`. -/
def pyRange (stop stride : Nat) : List Nat :=
  (List.range ((stop + stride - 1) / stride)).map (fun k => k * stride)

/-- Lexicographic comparison of `(y, x)` coordinates, as Python's tuple
comparison used by `sorted`. -/
def coordLe (a b : Nat × Nat) : Prop :=
  a.1 < b.1 ∨ (a.1 = b.1 ∧ a.2 ≤ b.2)

instance : DecidableRel coordLe := fun a b => by
  unfold coordLe; exact inferInstance

instance : IsTotal (Nat × Nat) coordLe :=
  ⟨fun a b => by unfold coordLe; omega⟩

instance : IsTrans (Nat × Nat) coordLe :=
  ⟨fun a b c h₁ h₂ => by unfold coordLe at *; omega⟩

/-- Row origins of the base grid: `range(0, max(1, H - ph + 1), stride)`.
In Python `H - ph + 1` can be nonpositive, in which case `max(1, ...)` is `1`;
with truncated `Nat` subtraction `max 1 (H - ph + 1)` is also `1` then, so the
values agree. -/
def baseRows (H ph stride : Nat) : List Nat :=
  pyRange (max 1 (H - ph + 1)) stride

/-- Column origins of the base grid: `range(0, max(1, W - pw + 1), stride)`. -/
def baseCols (W pw stride : Nat) : List Nat :=
  pyRange (max 1 (W - pw + 1)) stride

/-- Model of `iter_patch_coords`.  The Python function inserts the base grid
and the optional border row/column into a `set` and returns
`sorted(list(coords))`; building the same elements as a list and taking
`insertionSort` of its deduplication yields the identical sorted list.
The Python guard `(H - ph) % stride != 0 and H > ph` is stated with `Nat`
subtraction: whenever `H > ph` fails the whole guard is false in both
readings, and when it holds the subtractions agree. -/
def iter_patch_coords (H W ph pw stride : Nat) (include_borders : Bool) :
    List (Nat × Nat) :=
  let base := (baseRows H ph stride).flatMap
    (fun y => (baseCols W pw stride).map (fun x => (y, x)))
  let bottomRow :=
    if include_borders ∧ (H - ph) % stride ≠ 0 ∧ ph < H then
      (baseCols W pw stride).map (fun x => (H - ph, x))
    else []
  let rightCol :=
    if include_borders ∧ (W - pw) % stride ≠ 0 ∧ pw < W then
      (baseRows H ph stride).map (fun y => (y, W - pw))
    else []
  List.insertionSort coordLe (base ++ bottomRow ++ rightCol).dedup

/-- Counting elements of `pyRange`: `k < ⌈stop / stride⌉ ↔ k * stride < stop`. -/
lemma lt_ceil_iff {stop stride k : Nat} (hs : 0 < stride) :
    k < (stop + stride - 1) / stride ↔ k * stride < stop := by
  rw [Nat.lt_iff_add_one_le, Nat.le_div_iff_mul_le hs, add_one_mul]
  generalize k * stride = m
  omega

/-- Membership in `pyRange`: exactly the multiples of `stride` below `stop`. -/
lemma mem_pyRange {stop stride y : Nat} (hs : 0 < stride) :
    y ∈ pyRange stop stride ↔ (∃ k, y = k * stride) ∧ y < stop := by
  unfold pyRange
  simp only [List.mem_map, List.mem_range]
  constructor
  · rintro ⟨k, hk, rfl⟩
    exact ⟨⟨k, rfl⟩, (lt_ceil_iff hs).mp hk⟩
  · rintro ⟨⟨k, rfl⟩, hy⟩
    exact ⟨k, (lt_ceil_iff hs).mpr hy, rfl⟩

/-- Zero is always in `pyRange stop stride` when `stop ≥ 1` and `stride ≥ 1`. -/
lemma zero_mem_pyRange {stop stride : Nat} (hs : 0 < stride) (h : 0 < stop) :
    0 ∈ pyRange stop stride :=
  (mem_pyRange hs).mpr ⟨⟨0, by omega⟩, h⟩

/-- Membership characterisation of `iter_patch_coords`: a coordinate is
produced iff it lies on the base grid, on the optional bottom border row, or
on the optional right border column. -/
lemma mem_iter_patch_coords {H W ph pw stride : Nat} {include_borders : Bool}
    {p : Nat × Nat} :
    p ∈ iter_patch_coords H W ph pw stride include_borders ↔
      (p.1 ∈ baseRows H ph stride ∧ p.2 ∈ baseCols W pw stride) ∨
      (include_borders = true ∧ (H - ph) % stride ≠ 0 ∧ ph < H ∧
        p.1 = H - ph ∧ p.2 ∈ baseCols W pw stride) ∨
      (include_borders = true ∧ (W - pw) % stride ≠ 0 ∧ pw < W ∧
        p.2 = W - pw ∧ p.1 ∈ baseRows H ph stride) := by
  unfold iter_patch_coords
  rw [(List.perm_insertionSort coordLe _).mem_iff, List.mem_dedup]
  simp only [List.mem_append, List.mem_flatMap, List.mem_map, or_assoc]
  constructor
  · rintro (⟨y, hy, x, hx, hp⟩ | h | h)
    · exact Or.inl (by cases hp; exact ⟨hy, hx⟩)
    · split at h
      · next hc =>
        rw [List.mem_map] at h
        obtain ⟨x, hx, hp⟩ := h
        cases hp
        exact Or.inr (Or.inl ⟨hc.1, hc.2.1, hc.2.2, rfl, hx⟩)
      · simp at h
    · split at h
      · next hc =>
        rw [List.mem_map] at h
        obtain ⟨y, hy, hp⟩ := h
        cases hp
        exact Or.inr (Or.inr ⟨hc.1, hc.2.1, hc.2.2, rfl, hy⟩)
      · simp at h
  · rintro (⟨h1, h2⟩ | ⟨hb, hm, hlt, hp1, hp2⟩ | ⟨hb, hm, hlt, hp2, hp1⟩)
    · exact Or.inl ⟨p.1, h1, p.2, h2, rfl⟩
    · refine Or.inr (Or.inl ?_)
      rw [if_pos ⟨hb, hm, hlt⟩, List.mem_map]
      exact ⟨p.2, hp2, by rw [← hp1]⟩
    · refine Or.inr (Or.inr ?_)
      rw [if_pos ⟨hb, hm, hlt⟩, List.mem_map]
      exact ⟨p.1, hp1, by rw [← hp2]⟩

/-- C1 theorem. For `S ≥ 1`, `P ≤ H`, `P ≤ W`, every coordinate generated by
`iter_patch_coords` satisfies `y ≤ H - P` and `x ≤ W - P` (the lower bound
`0 ≤ y`, `0 ≤ x` is automatic: coordinates are natural numbers). -/
theorem iter_patch_coords_in_bounds (H W P S : Nat) (ib : Bool)
    (hS : 1 ≤ S) (hPH : P ≤ H) (hPW : P ≤ W) :
    ∀ p ∈ iter_patch_coords H W P P S ib, p.1 ≤ H - P ∧ p.2 ≤ W - P := by
  intro p hp
  have hrow : ∀ y ∈ baseRows H P S, y ≤ H - P := by
    intro y hy
    have := ((mem_pyRange hS).mp hy).2
    omega
  have hcol : ∀ x ∈ baseCols W P S, x ≤ W - P := by
    intro x hx
    have := ((mem_pyRange hS).mp hx).2
    omega
  rcases mem_iter_patch_coords.mp hp with ⟨h1, h2⟩ |
      ⟨_, _, _, hp1, hp2⟩ | ⟨_, _, _, hp2, hp1⟩
  · exact ⟨hrow _ h1, hcol _ h2⟩
  · exact ⟨le_of_eq hp1, hcol _ hp2⟩
  · exact ⟨hrow _ hp1, le_of_eq hp2⟩

/-- Witness for the C1 theorem at `H = W = 3`, `P = 2`, `S = 1`. -/
theorem iter_patch_coords_in_bounds_witness :
    1 ≤ 1 ∧ 2 ≤ 3 ∧
      ∀ p ∈ iter_patch_coords 3 3 2 2 1 true, p.1 ≤ 3 - 2 ∧ p.2 ≤ 3 - 2 :=
  ⟨by decide, by decide,
    iter_patch_coords_in_bounds 3 3 2 1 true (by decide) (by decide) (by decide)⟩

/-- C9 theorem. `iter_patch_coords` is a pure function (two calls on the same
input are definitionally equal), and its output is strictly sorted in the
lexicographic order on `(y, x)` — in particular it is sorted ascending and
contains no duplicate coordinate. -/
theorem iter_patch_coords_deterministic_sorted
    (H W ph pw S : Nat) (ib : Bool) :
    iter_patch_coords H W ph pw S ib = iter_patch_coords H W ph pw S ib ∧
      List.Pairwise (fun a b : Nat × Nat => a.1 < b.1 ∨ (a.1 = b.1 ∧ a.2 < b.2))
        (iter_patch_coords H W ph pw S ib) := by
  refine ⟨rfl, ?_⟩
  have hsorted : List.Pairwise coordLe (iter_patch_coords H W ph pw S ib) :=
    List.sorted_insertionSort coordLe _
  have hnodup : (iter_patch_coords H W ph pw S ib).Nodup := by
    unfold iter_patch_coords
    exact ((List.perm_insertionSort coordLe _).nodup_iff).mpr (List.nodup_dedup _)
  refine (hsorted.and hnodup).imp ?_
  rintro a b ⟨hle, hne⟩
  rcases hle with h | ⟨h1, h2⟩
  · exact Or.inl h
  · refine Or.inr ⟨h1, lt_of_le_of_ne h2 ?_⟩
    intro h2e
    exact hne (Prod.ext h1 h2e)

/-! ## C2: the border bottom row -/

/-- The output of `iter_patch_coords` (square patch `P`, stride `S`) contains
a full bottom row: a coordinate `(H - P, x)` for every `x` of the base column
grid. -/
def bottom_row_full (H W P S : Nat) (ib : Bool) : Prop :=
  ∀ x ∈ baseCols W P S, (H - P, x) ∈ iter_patch_coords H W P P S ib

instance (H W P S : Nat) (ib : Bool) : Decidable (bottom_row_full H W P S ib) := by
  unfold bottom_row_full; exact inferInstance

/-- Counterexample to C2 as stated.  With `H = 512`, `W = 300`, `P = 256`,
`S = 256`, borders enabled, the full bottom row at `y = H - P = 256` IS
present in the output (the base grid itself reaches `y = 256` because
`(H - P) mod S = 0`), while the claimed right-hand side of the equivalence is
false; so the bottom row is not absent at this input and the stated `iff`
fails. -/
theorem bottom_row_iff_counterexample :
    ¬ (bottom_row_full 512 300 256 256 true ↔
        (true = true ∧ 256 < 512 ∧ (512 - 256) % 256 ≠ 0)) := by
  decide

/-- C2 theorem (amended).  For `S ≥ 1`: the output contains a full bottom row
at `y = H - P` that the base row grid does not already contain iff borders
are enabled, `H > P`, and `(H - P) mod S ≠ 0`.  (When `(H - P) mod S = 0`
and `P ≤ H` the bottom row is present too, but it belongs to the base grid
and is not added by the border step.) -/
theorem bottom_row_added_iff (H W P S : Nat) (ib : Bool) (hS : 1 ≤ S) :
    (bottom_row_full H W P S ib ∧ (H - P) ∉ baseRows H P S) ↔
      (ib = true ∧ P < H ∧ (H - P) % S ≠ 0) := by
  constructor
  · rintro ⟨hfull, hnot⟩
    have h0 : (0 : Nat) ∈ baseCols W P S :=
      zero_mem_pyRange hS (by omega)
    have hmem := hfull 0 h0
    rcases mem_iter_patch_coords.mp hmem with ⟨h1, _⟩ |
        ⟨hb, hm, hlt, _, _⟩ | ⟨_, _, _, hp2, hp1⟩
    · exact absurd h1 hnot
    · exact ⟨hb, hlt, hm⟩
    · exact absurd hp1 hnot
  · rintro ⟨hb, hlt, hm⟩
    refine ⟨?_, ?_⟩
    · intro x hx
      exact mem_iter_patch_coords.mpr (Or.inr (Or.inl ⟨hb, hm, hlt, rfl, hx⟩))
    · intro hmem
      obtain ⟨⟨k, hk⟩, _⟩ := (mem_pyRange hS).mp hmem
      exact hm (by rw [hk]; exact Nat.mul_mod_left k S)

/-- Witness for the amended C2 theorem at `H = 300`, `W = 300`, `P = 256`,
`S = 256`, borders enabled: the stride grid stops at `y = 0` and the border
step adds the bottom row at `y = 44`. -/
theorem bottom_row_added_iff_witness :
    1 ≤ 256 ∧
      ((bottom_row_full 300 300 256 256 true ∧
          (300 - 256) ∉ baseRows 300 256 256) ↔
        (true = true ∧ 256 < 300 ∧ (300 - 256) % 256 ≠ 0)) :=
  ⟨by decide, bottom_row_added_iff 300 300 256 256 true (by decide)⟩

/-! ## Patch extraction for one pair: `extract_patches_for_pair`
(src/app/domain/patch_extractor.py lines 82-158) -/

/-- A binary mask as produced by `load_mask`: dimensions plus a 0/1 value per
pixel, modelled as `Bool` (`true` = 1 after thresholding `m > 0`). -/
structure MaskGrid where
  hdim : Nat
  wdim : Nat
  val : Nat → Nat → Bool

/-- Number of rows of the numpy slice `msk[y : y + ph, x : x + pw]`, which
clips at the array bounds. -/
def cropRows (m : MaskGrid) (y ph : Nat) : Nat := min ph (m.hdim - y)

/-- Number of columns of the numpy slice `msk[y : y + ph, x : x + pw]`. -/
def cropCols (m : MaskGrid) (x pw : Nat) : Nat := min pw (m.wdim - x)

/-- Number of 1-entries in the crop `msk[y : y + ph, x : x + pw]`. -/
def cropOnes (m : MaskGrid) (y x ph pw : Nat) : Nat :=
  ((List.range (cropRows m y ph)).map (fun i =>
    ((List.range (cropCols m x pw)).filter (fun j => m.val (y + i) (x + j))).length)).sum

/-- Value of `m.mean()` on the crop: ones divided by crop size, as an exact
rational (numpy computes this float-valued; all values are 0 or 1). -/
def cropCoverage (m : MaskGrid) (y x ph pw : Nat) : ℚ :=
  (cropOnes m y x ph pw : ℚ) / ((cropRows m y ph : ℚ) * (cropCols m x pw : ℚ))

/-- The shape test `m.shape[0] != ph or m.shape[1] != pw` (negated): the crop
has full size. -/
def shapeOk (m : MaskGrid) (ph pw y x : Nat) : Bool :=
  decide (cropRows m y ph = ph) && decide (cropCols m x pw = pw)

/-- One iteration of the candidate loop of `extract_patches_for_pair`: skip
out-of-bounds crops, record the coverage of every evaluated candidate, and
append the coordinate to `kept` when the filter is off or the coverage
reaches the threshold. -/
def scanStep (m : MaskGrid) (ph pw : Nat) (apply_filter : Bool) (min_mask_frac : ℚ)
    (acc : List (Nat × Nat) × List ℚ) (p : Nat × Nat) :
    List (Nat × Nat) × List ℚ :=
  if shapeOk m ph pw p.1 p.2 then
    let r := cropCoverage m p.1 p.2 ph pw
    if (!apply_filter) || decide (min_mask_frac ≤ r) then
      (acc.1 ++ [p], acc.2 ++ [r])
    else
      (acc.1, acc.2 ++ [r])
  else acc

/-- The candidate loop of `extract_patches_for_pair`, producing the `kept`
list (before the cap) and the `coverages` list. -/
def scanCoords (m : MaskGrid) (ph pw : Nat) (apply_filter : Bool)
    (min_mask_frac : ℚ) (coords : List (Nat × Nat)) :
    List (Nat × Nat) × List ℚ :=
  coords.foldl (scanStep m ph pw apply_filter min_mask_frac) ([], [])

/-- Candidates whose crop passes the shape test — the evaluated candidates. -/
def evaluatedCoords (m : MaskGrid) (ph pw : Nat) (coords : List (Nat × Nat)) :
    List (Nat × Nat) :=
  coords.filter (fun p => shapeOk m ph pw p.1 p.2)

/-- Evaluated candidates that survive the coverage filter. -/
def survivingCoords (m : MaskGrid) (ph pw : Nat) (apply_filter : Bool)
    (min_mask_frac : ℚ) (coords : List (Nat × Nat)) : List (Nat × Nat) :=
  (evaluatedCoords m ph pw coords).filter
    (fun p => (!apply_filter) || decide (min_mask_frac ≤ cropCoverage m p.1 p.2 ph pw))

/-- The scan loop computes exactly the surviving candidates and the coverage
of every evaluated candidate, in order. -/
lemma scanCoords_eq (m : MaskGrid) (ph pw : Nat) (apply_filter : Bool)
    (min_mask_frac : ℚ) (coords : List (Nat × Nat)) :
    scanCoords m ph pw apply_filter min_mask_frac coords =
      (survivingCoords m ph pw apply_filter min_mask_frac coords,
        (evaluatedCoords m ph pw coords).map
          (fun p => cropCoverage m p.1 p.2 ph pw)) := by
  suffices h : ∀ (coords : List (Nat × Nat)) (a : List (Nat × Nat)) (b : List ℚ),
      coords.foldl (scanStep m ph pw apply_filter min_mask_frac) (a, b) =
        (a ++ survivingCoords m ph pw apply_filter min_mask_frac coords,
          b ++ (evaluatedCoords m ph pw coords).map
            (fun p => cropCoverage m p.1 p.2 ph pw)) by
    simpa using h coords [] []
  intro coords
  induction coords with
  | nil => intro a b; simp [survivingCoords, evaluatedCoords]
  | cons p rest ih =>
    intro a b
    rw [List.foldl_cons]
    by_cases hs : shapeOk m ph pw p.1 p.2
    · by_cases hk : ((!apply_filter) ||
          decide (min_mask_frac ≤ cropCoverage m p.1 p.2 ph pw)) = true
      · have hstep : scanStep m ph pw apply_filter min_mask_frac (a, b) p =
            (a ++ [p], b ++ [cropCoverage m p.1 p.2 ph pw]) := by
          simp [scanStep, hs, hk]
        rw [hstep, ih]
        simp [survivingCoords, evaluatedCoords, List.filter_cons, hs, hk]
      · have hstep : scanStep m ph pw apply_filter min_mask_frac (a, b) p =
            (a, b ++ [cropCoverage m p.1 p.2 ph pw]) := by
          simp only [scanStep, hs, if_true]
          rw [if_neg hk]
        rw [hstep, ih]
        rw [Bool.not_eq_true] at hk
        simp [survivingCoords, evaluatedCoords, List.filter_cons, hs, hk]
    · have hs' : shapeOk m ph pw p.1 p.2 = false := by simpa using hs
      have hstep : scanStep m ph pw apply_filter min_mask_frac (a, b) p =
          (a, b) := by
        simp [scanStep, hs']
      rw [hstep, ih]
      simp [survivingCoords, evaluatedCoords, List.filter_cons, hs']

/-- The result of `extract_patches_for_pair`: the returned patch count, the
three fields of the `stats` dictionary, and (for stating properties) the
final list of kept coordinates. -/
structure ExtractResult where
  count : Nat
  total_coords : Nat
  kept : Nat
  coverage_mean : ℚ
  keptCoords : List (Nat × Nat)
  deriving Repr

/-- Model of `extract_patches_for_pair`.  Inputs: the mask grid (from
`load_mask`), the image dimensions `H`, `W` (from `img.shape`), the
configuration arguments, and an explicit `shuffle` function standing for
`random.shuffle`.  The writing loop always succeeds in the model, so `count`
is the number of write iterations over the kept list. -/
def extract_patches_for_pair (m : MaskGrid) (H W patch stride : Nat)
    (min_mask_frac : ℚ) (max_patches : Nat)
    (include_borders apply_filter : Bool)
    (shuffle : List (Nat × Nat) → List (Nat × Nat)) : ExtractResult :=
  let coords := iter_patch_coords H W patch patch stride include_borders
  let sc := scanCoords m patch patch apply_filter min_mask_frac coords
  let keptL :=
    if 0 < max_patches ∧ max_patches < sc.1.length then
      (shuffle sc.1).take max_patches
    else sc.1
  { count := keptL.foldl (fun n _ => n + 1) 0
    total_coords := coords.length
    kept := keptL.length
    coverage_mean := if sc.2.length ≠ 0 then sc.2.sum / (sc.2.length : ℚ) else 0
    keptCoords := keptL }

/-- Counting loop of the writer: `count += 1` per kept coordinate. -/
lemma foldl_add_one {α : Type} (l : List α) :
    ∀ n : Nat, l.foldl (fun n _ => n + 1) n = n + l.length := by
  induction l with
  | nil => intro n; simp
  | cons a l ih => intro n; rw [List.foldl_cons, ih]; simp; omega

/-- The kept coordinate list of the extraction result: the surviving
candidates, capped (after shuffling) when a positive cap is exceeded. -/
lemma extract_keptCoords (m : MaskGrid) (H W patch stride : Nat)
    (min_mask_frac : ℚ) (max_patches : Nat) (ib af : Bool)
    (shuffle : List (Nat × Nat) → List (Nat × Nat)) :
    (extract_patches_for_pair m H W patch stride min_mask_frac max_patches
        ib af shuffle).keptCoords =
      if 0 < max_patches ∧ max_patches <
          (survivingCoords m patch patch af min_mask_frac
            (iter_patch_coords H W patch patch stride ib)).length then
        (shuffle (survivingCoords m patch patch af min_mask_frac
          (iter_patch_coords H W patch patch stride ib))).take max_patches
      else
        survivingCoords m patch patch af min_mask_frac
          (iter_patch_coords H W patch patch stride ib) := by
  simp only [extract_patches_for_pair, scanCoords_eq]

/-- The `kept` statistic is the length of the kept coordinate list. -/
lemma extract_kept_eq_length (m : MaskGrid) (H W patch stride : Nat)
    (min_mask_frac : ℚ) (max_patches : Nat) (ib af : Bool)
    (shuffle : List (Nat × Nat) → List (Nat × Nat)) :
    (extract_patches_for_pair m H W patch stride min_mask_frac max_patches
        ib af shuffle).kept =
      (extract_patches_for_pair m H W patch stride min_mask_frac max_patches
        ib af shuffle).keptCoords.length := rfl

/-- C3 theorem.  Assuming `random.shuffle` permutes the list: with a positive
cap, the kept count never exceeds the cap and equals it exactly when more
candidates survive the coverage filter than the cap allows; with cap `0` the
kept list is exactly the list of surviving candidates (no cap). -/
theorem extract_cap_behaviour (m : MaskGrid) (H W patch stride : Nat)
    (min_mask_frac : ℚ) (max_patches : Nat) (ib af : Bool)
    (shuffle : List (Nat × Nat) → List (Nat × Nat))
    (hshuf : ∀ l : List (Nat × Nat), (shuffle l).Perm l) :
    (0 < max_patches →
      (extract_patches_for_pair m H W patch stride min_mask_frac max_patches
          ib af shuffle).kept ≤ max_patches ∧
      ((survivingCoords m patch patch af min_mask_frac
          (iter_patch_coords H W patch patch stride ib)).length > max_patches →
        (extract_patches_for_pair m H W patch stride min_mask_frac max_patches
          ib af shuffle).kept = max_patches)) ∧
    (max_patches = 0 →
      (extract_patches_for_pair m H W patch stride min_mask_frac max_patches
          ib af shuffle).keptCoords =
        survivingCoords m patch patch af min_mask_frac
          (iter_patch_coords H W patch patch stride ib)) := by
  set s := survivingCoords m patch patch af min_mask_frac
    (iter_patch_coords H W patch patch stride ib) with hs
  have hk := extract_keptCoords m H W patch stride min_mask_frac max_patches
    ib af shuffle
  rw [← hs] at hk
  have hkl := extract_kept_eq_length m H W patch stride min_mask_frac
    max_patches ib af shuffle
  constructor
  · intro hmp
    constructor
    · rw [hkl, hk]
      split
      · rw [List.length_take]
        exact min_le_left _ _
      · next hcond =>
        rw [not_and, not_lt] at hcond
        exact hcond hmp
    · intro hlen
      rw [hkl, hk, if_pos ⟨hmp, hlen⟩, List.length_take, (hshuf s).length_eq]
      omega
  · intro h0
    rw [hk, if_neg]
    rintro ⟨hpos, _⟩
    omega

/-- Witness for the C3 theorem: a 2×2 all-ones mask, patch 1, stride 1,
cap 1, filter off, with the identity permutation standing for the shuffle. -/
theorem extract_cap_behaviour_witness :
    (∀ l : List (Nat × Nat), ((fun l => l) l : List (Nat × Nat)).Perm l) ∧
    ((0 < 1 →
      (extract_patches_for_pair ⟨2, 2, fun _ _ => true⟩ 2 2 1 1 0 1
          false false (fun l => l)).kept ≤ 1 ∧
      ((survivingCoords ⟨2, 2, fun _ _ => true⟩ 1 1 false 0
          (iter_patch_coords 2 2 1 1 1 false)).length > 1 →
        (extract_patches_for_pair ⟨2, 2, fun _ _ => true⟩ 2 2 1 1 0 1
          false false (fun l => l)).kept = 1)) ∧
    (1 = 0 →
      (extract_patches_for_pair ⟨2, 2, fun _ _ => true⟩ 2 2 1 1 0 1
          false false (fun l => l)).keptCoords =
        survivingCoords ⟨2, 2, fun _ _ => true⟩ 1 1 false 0
          (iter_patch_coords 2 2 1 1 1 false))) :=
  ⟨fun l => List.Perm.refl l,
    extract_cap_behaviour ⟨2, 2, fun _ _ => true⟩ 2 2 1 1 0 1 false false
      (fun l => l) (fun l => List.Perm.refl l)⟩

/-- C10 theorem.  The returned patch count equals the `kept` statistic, and
`kept` never exceeds `total_coords`. -/
theorem extract_count_invariant (m : MaskGrid) (H W patch stride : Nat)
    (min_mask_frac : ℚ) (max_patches : Nat) (ib af : Bool)
    (shuffle : List (Nat × Nat) → List (Nat × Nat)) :
    (extract_patches_for_pair m H W patch stride min_mask_frac max_patches
        ib af shuffle).count =
      (extract_patches_for_pair m H W patch stride min_mask_frac max_patches
        ib af shuffle).kept ∧
    (extract_patches_for_pair m H W patch stride min_mask_frac max_patches
        ib af shuffle).kept ≤
      (extract_patches_for_pair m H W patch stride min_mask_frac max_patches
        ib af shuffle).total_coords := by
  constructor
  · show (extract_patches_for_pair m H W patch stride min_mask_frac
        max_patches ib af shuffle).keptCoords.foldl (fun n _ => n + 1) 0 =
      (extract_patches_for_pair m H W patch stride min_mask_frac
        max_patches ib af shuffle).keptCoords.length
    rw [foldl_add_one]
    omega
  · rw [extract_kept_eq_length, extract_keptCoords]
    show _ ≤ (iter_patch_coords H W patch patch stride ib).length
    have hlen : (survivingCoords m patch patch af min_mask_frac
        (iter_patch_coords H W patch patch stride ib)).length ≤
        (iter_patch_coords H W patch patch stride ib).length :=
      le_trans (List.length_filter_le _ _) (List.length_filter_le _ _)
    split
    · next hcond =>
      rw [List.length_take]
      omega
    · exact hlen

/-- Statistic described by the spec: the arithmetic mean of the coverage of
all evaluated in-bounds candidates — kept and discarded alike — and `0.0`
when no candidate was evaluated. -/
def specCoverageMean (m : MaskGrid) (ph pw : Nat)
    (coords : List (Nat × Nat)) : ℚ :=
  let rs := (evaluatedCoords m ph pw coords).map
    (fun p => cropCoverage m p.1 p.2 ph pw)
  if rs.length ≠ 0 then rs.sum / (rs.length : ℚ) else 0

/-- The `coverage_mean` statistic computed by the code equals the spec's
description, for any filter setting, threshold, cap and shuffle. -/
lemma extract_coverage_mean_eq (m : MaskGrid) (H W patch stride : Nat)
    (min_mask_frac : ℚ) (max_patches : Nat) (ib af : Bool)
    (shuffle : List (Nat × Nat) → List (Nat × Nat)) :
    (extract_patches_for_pair m H W patch stride min_mask_frac max_patches
        ib af shuffle).coverage_mean =
      specCoverageMean m patch patch
        (iter_patch_coords H W patch patch stride ib) := by
  simp only [extract_patches_for_pair, scanCoords_eq, specCoverageMean]

/-- Each candidate's ones count is at most the crop size. -/
lemma cropOnes_le (m : MaskGrid) (y x ph pw : Nat) :
    cropOnes m y x ph pw ≤ cropRows m y ph * cropCols m x pw := by
  unfold cropOnes
  refine le_trans (List.sum_le_card_nsmul _ (cropCols m x pw) ?_) ?_
  · intro v hv
    rw [List.mem_map] at hv
    obtain ⟨i, _, rfl⟩ := hv
    calc ((List.range (cropCols m x pw)).filter
          (fun j => m.val (y + i) (x + j))).length
        ≤ (List.range (cropCols m x pw)).length := List.length_filter_le _ _
      _ = cropCols m x pw := List.length_range _
  · simp [smul_eq_mul]

/-- Coverage of any crop is nonnegative. -/
lemma cropCoverage_nonneg (m : MaskGrid) (y x ph pw : Nat) :
    0 ≤ cropCoverage m y x ph pw :=
  div_nonneg (Nat.cast_nonneg _)
    (mul_nonneg (Nat.cast_nonneg _) (Nat.cast_nonneg _))

/-- Coverage of a nonempty crop is at most one. -/
lemma cropCoverage_le_one (m : MaskGrid) (y x ph pw : Nat)
    (hr : 0 < cropRows m y ph) (hc : 0 < cropCols m x pw) :
    cropCoverage m y x ph pw ≤ 1 := by
  unfold cropCoverage
  rw [div_le_one (by exact_mod_cast Nat.mul_pos hr hc)]
  exact_mod_cast cropOnes_le m y x ph pw

/-- C4 theorem.  For a positive patch size: the `coverage_mean` statistic
equals the arithmetic mean of the coverage values of all evaluated in-bounds
candidates; it is independent of the filter flag, the threshold, the cap and
the shuffle; and each evaluated candidate's coverage lies in `[0, 1]`. -/
theorem extract_coverage_mean_spec (m : MaskGrid) (H W patch stride : Nat)
    (min_mask_frac : ℚ) (max_patches : Nat) (ib af : Bool)
    (shuffle : List (Nat × Nat) → List (Nat × Nat)) (hp : 0 < patch) :
    (extract_patches_for_pair m H W patch stride min_mask_frac max_patches
        ib af shuffle).coverage_mean =
      specCoverageMean m patch patch
        (iter_patch_coords H W patch patch stride ib) ∧
    (∀ (min_mask_frac' : ℚ) (max_patches' : Nat) (af' : Bool)
        (shuffle' : List (Nat × Nat) → List (Nat × Nat)),
      (extract_patches_for_pair m H W patch stride min_mask_frac' max_patches'
          ib af' shuffle').coverage_mean =
        (extract_patches_for_pair m H W patch stride min_mask_frac max_patches
          ib af shuffle).coverage_mean) ∧
    (∀ p ∈ evaluatedCoords m patch patch
        (iter_patch_coords H W patch patch stride ib),
      0 ≤ cropCoverage m p.1 p.2 patch patch ∧
        cropCoverage m p.1 p.2 patch patch ≤ 1) := by
  refine ⟨extract_coverage_mean_eq m H W patch stride min_mask_frac
    max_patches ib af shuffle, ?_, ?_⟩
  · intro f' mp' af' shuffle'
    rw [extract_coverage_mean_eq, extract_coverage_mean_eq]
  · intro p hp'
    rw [evaluatedCoords, List.mem_filter] at hp'
    have hok := hp'.2
    rw [shapeOk, Bool.and_eq_true, decide_eq_true_iff, decide_eq_true_iff] at hok
    refine ⟨cropCoverage_nonneg m p.1 p.2 patch patch, ?_⟩
    exact cropCoverage_le_one m p.1 p.2 patch patch
      (by rw [hok.1]; exact hp) (by rw [hok.2]; exact hp)

/-- Witness for the C4 theorem: a 2×2 mask with one foreground pixel,
patch 1, stride 1. -/
theorem extract_coverage_mean_spec_witness :
    0 < 1 ∧
    ((extract_patches_for_pair ⟨2, 2, fun y x => y = 0 ∧ x = 0⟩ 2 2 1 1 0 0
        true true (fun l => l)).coverage_mean =
      specCoverageMean ⟨2, 2, fun y x => y = 0 ∧ x = 0⟩ 1 1
        (iter_patch_coords 2 2 1 1 1 true) ∧
    (∀ (min_mask_frac' : ℚ) (max_patches' : Nat) (af' : Bool)
        (shuffle' : List (Nat × Nat) → List (Nat × Nat)),
      (extract_patches_for_pair ⟨2, 2, fun y x => y = 0 ∧ x = 0⟩ 2 2 1 1
          min_mask_frac' max_patches' true af' shuffle').coverage_mean =
        (extract_patches_for_pair ⟨2, 2, fun y x => y = 0 ∧ x = 0⟩ 2 2 1 1 0 0
          true true (fun l => l)).coverage_mean) ∧
    (∀ p ∈ evaluatedCoords ⟨2, 2, fun y x => y = 0 ∧ x = 0⟩ 1 1
        (iter_patch_coords 2 2 1 1 1 true),
      0 ≤ cropCoverage ⟨2, 2, fun y x => y = 0 ∧ x = 0⟩ p.1 p.2 1 1 ∧
        cropCoverage ⟨2, 2, fun y x => y = 0 ∧ x = 0⟩ p.1 p.2 1 1 ≤ 1)) :=
  ⟨by decide,
    extract_coverage_mean_spec ⟨2, 2, fun y x => y = 0 ∧ x = 0⟩ 2 2 1 1 0 0
      true true (fun l => l) (by decide)⟩

/-! ## Pairing: `list_pairs` (src/app/domain/pairing.py lines 13-45)

Filesystem enumeration is modelled by passing the two glob result lists
(images, then masks) explicitly; `list_pairs` in the source concatenates the
per-pattern glob results in enumeration order, sorts the image list, builds
the stem-to-mask dictionary (later entries overwrite earlier ones) and keeps
every image whose stem is a dictionary key. -/

/-- Characters of `os.path.basename(p)` (POSIX): everything after the last
slash, computed by resetting the accumulator at each `'/'`. -/
def basenameChars (s : List Char) : List Char :=
  s.foldl (fun acc c => if c = '/' then [] else acc ++ [c]) []

/-- Index of the last `'.'` in a character list, if any. -/
def lastDotIdx : List Char → Option Nat
  | [] => none
  | c :: cs =>
    match lastDotIdx cs with
    | some i => some (i + 1)
    | none => if c = '.' then some 0 else none

/-- Root part of `os.path.splitext` on a basename: cut at the last dot,
except when every character before that dot is itself a dot (CPython keeps
leading dots, e.g. `".bashrc"` has no extension). -/
def splitextRoot (b : List Char) : List Char :=
  match lastDotIdx b with
  | none => b
  | some i => if (b.take i).all (fun c => c = '.') then b else b.take i

/-- The filename stem `os.path.splitext(os.path.basename(p))[0]` used as the
pairing key. -/
def stem (p : String) : String :=
  ⟨splitextRoot (basenameChars p.toList)⟩

/-- The dictionary comprehension
`{splitext(basename(m))[0]: m for m in mask_paths}`: a finite map from stems
to mask paths in which the last enumerated mask with a given stem wins. -/
def mask_index (mask_paths : List String) : String → Option String :=
  mask_paths.foldl
    (fun d mp k => if k = stem mp then some mp else d k)
    (fun _ => none)

/-- Model of `list_pairs`: sort the enumerated image paths, then keep each
image whose stem appears in the mask dictionary, paired with the dictionary
entry.  An empty result is an ordinary value (no error path exists). -/
def list_pairs (img_paths mask_paths : List String) :
    List (String × String) :=
  (List.insertionSort (fun a b : String => a ≤ b) img_paths).filterMap
    (fun ip => (mask_index mask_paths (stem ip)).map (fun mp => (ip, mp)))

/-- Dictionary lookup characterisation: a lookup either falls through (no
mask has the key as stem) or returns some mask with that stem. -/
lemma mask_index_aux (ms : List String) :
    ∀ (d : String → Option String) (k : String),
      ((ms.foldl (fun d mp k => if k = stem mp then some mp else d k) d) k
          = d k ∧ ∀ mp ∈ ms, stem mp ≠ k) ∨
      (∃ mp ∈ ms, stem mp = k ∧
        (ms.foldl (fun d mp k => if k = stem mp then some mp else d k) d) k
          = some mp) := by
  induction ms with
  | nil => intro d k; exact Or.inl ⟨rfl, by simp⟩
  | cons m ms ih =>
    intro d k
    rw [List.foldl_cons]
    rcases ih (fun k => if k = stem m then some m else d k) k with
        ⟨h1, h2⟩ | ⟨mp, hmem, hstem, heq⟩
    · by_cases hk : k = stem m
      · refine Or.inr ⟨m, List.mem_cons_self m ms, hk.symm, ?_⟩
        rw [h1, if_pos hk]
      · refine Or.inl ⟨by rw [h1, if_neg hk], ?_⟩
        intro mp hmp
        rcases List.mem_cons.mp hmp with rfl | hmp'
        · exact fun h => hk h.symm
        · exact h2 mp hmp'
    · exact Or.inr ⟨mp, List.mem_cons_of_mem m hmem, hstem, heq⟩

/-- A successful dictionary lookup returns an enumerated mask whose stem is
the key. -/
lemma mask_index_some {ms : List String} {k : String} {mp : String}
    (h : mask_index ms k = some mp) : mp ∈ ms ∧ stem mp = k := by
  rcases mask_index_aux ms (fun _ => none) k with ⟨h1, _⟩ | ⟨mp', hmem, hstem, heq⟩
  · rw [mask_index] at h
    rw [h1] at h
    cases h
  · rw [mask_index] at h
    rw [heq] at h
    cases h
    exact ⟨hmem, hstem⟩

/-- If some enumerated mask has the key as stem, the lookup succeeds. -/
lemma mask_index_isSome {ms : List String} {k : String}
    (h : ∃ mp ∈ ms, stem mp = k) : ∃ mp, mask_index ms k = some mp := by
  rcases mask_index_aux ms (fun _ => none) k with ⟨_, h2⟩ | ⟨mp, _, _, heq⟩
  · obtain ⟨mp, hmem, hstem⟩ := h
    exact absurd hstem (h2 mp hmem)
  · exact ⟨mp, heq⟩

/-- C5 theorem.  `list_pairs` returns pairs sorted ascending by image path;
every returned pair consists of an enumerated image and an enumerated mask
with equal stems; and an enumerated image appears in some pair exactly when
some enumerated mask shares its stem — images without a matching mask are
silently excluded, and an empty result is an ordinary (non-error) value. -/
theorem list_pairs_spec (img_paths mask_paths : List String) :
    List.Pairwise (fun a b : String × String => a.1 ≤ b.1)
      (list_pairs img_paths mask_paths) ∧
    (∀ ip mp, (ip, mp) ∈ list_pairs img_paths mask_paths →
      ip ∈ img_paths ∧ mp ∈ mask_paths ∧ stem mp = stem ip) ∧
    (∀ ip ∈ img_paths,
      ((∃ mp, (ip, mp) ∈ list_pairs img_paths mask_paths) ↔
        ∃ mp ∈ mask_paths, stem mp = stem ip)) := by
  have hmem : ∀ ip mp, (ip, mp) ∈ list_pairs img_paths mask_paths ↔
      (ip ∈ img_paths ∧ mask_index mask_paths (stem ip) = some mp) := by
    intro ip mp
    rw [list_pairs, List.mem_filterMap]
    constructor
    · rintro ⟨a, ha, hf⟩
      rcases hopt : mask_index mask_paths (stem a) with _ | v
      · rw [hopt] at hf; cases hf
      · rw [hopt] at hf
        rw [Option.map_some'] at hf
        cases hf
        exact ⟨(List.perm_insertionSort _ img_paths).mem_iff.mp ha, hopt⟩
    · rintro ⟨hip, hidx⟩
      refine ⟨ip, (List.perm_insertionSort _ img_paths).mem_iff.mpr hip, ?_⟩
      rw [hidx]
      rfl
  refine ⟨?_, ?_, ?_⟩
  · rw [list_pairs, List.pairwise_filterMap]
    have hsorted : List.Pairwise (fun a b : String => a ≤ b)
        (List.insertionSort (fun a b : String => a ≤ b) img_paths) :=
      List.sorted_insertionSort (fun a b : String => a ≤ b) img_paths
    refine hsorted.imp ?_
    intro a b hab
    intro p hp q hq
    rcases ho : mask_index mask_paths (stem a) with _ | v <;> rw [ho] at hp
    · cases hp
    · rcases ho' : mask_index mask_paths (stem b) with _ | w <;> rw [ho'] at hq
      · cases hq
      · rw [Option.map_some', Option.mem_def, Option.some_inj] at hp hq
        rw [← hp, ← hq]
        exact hab
  · intro ip mp h
    obtain ⟨hip, hidx⟩ := (hmem ip mp).mp h
    obtain ⟨hmp, hstem⟩ := mask_index_some hidx
    exact ⟨hip, hmp, hstem⟩
  · intro ip hip
    constructor
    · rintro ⟨mp, h⟩
      obtain ⟨_, hidx⟩ := (hmem ip mp).mp h
      obtain ⟨hmp, hstem⟩ := mask_index_some hidx
      exact ⟨mp, hmp, hstem⟩
    · intro h
      obtain ⟨mp, hidx⟩ := mask_index_isSome h
      exact ⟨mp, (hmem ip mp).mpr ⟨hip, hidx⟩⟩

/-! ## Batch runner: `ExtractionRunner.run`
(src/app/services/runner.py lines 63-140)

The runner's observable behaviour is modelled as a trace of events: directory
creations, calls into `extract_patches_for_pair` (where all cropping and
writing happens), and the four Qt signal emissions.  The pair list discovered
by `list_pairs` and the per-iteration image count (`glob` in the stats
emission) are passed in explicitly, as is the state of the `_cancel` flag as
observed at the top of each pair iteration (indexed by the number of pairs
already processed; `cancel()` only ever sets the flag, never clears it).
The pause busy-wait loop does not produce events and is not modelled. -/

/-- Observable actions of one `run()` invocation, in order. -/
inductive RunEvent where
  | mkdirOut (sub : Nat) : RunEvent
  | extractCall (idx : Nat) : RunEvent
  | progress (pct : Nat) : RunEvent
  | statsEmit (images pairs processed patches_total kept_last : Int) : RunEvent
  | previewEmit (idx : Nat) : RunEvent
  | doneEmit (success : Bool) (msg : String) : RunEvent
  deriving DecidableEq

/-- Inputs of one pair: the loaded mask and the image dimensions. -/
structure PairInput where
  msk : MaskGrid
  H : Nat
  W : Nat

/-- The configuration fields of `AppConfig` that the modelled loop reads. -/
structure RunnerCfg where
  patch_size : Nat
  stride : Nat
  min_mask_frac : ℚ
  max_patches_per_image : Nat
  include_borders : Bool
  apply_min_mask_frac : Bool
  dry_run : Bool

/-- Patch count contributed by one pair (`c` in the source). -/
def pairKept (cfg : RunnerCfg) (shuffle : List (Nat × Nat) → List (Nat × Nat))
    (p : PairInput) : Nat :=
  (extract_patches_for_pair p.msk p.H p.W cfg.patch_size cfg.stride
    cfg.min_mask_frac cfg.max_patches_per_image cfg.include_borders
    cfg.apply_min_mask_frac shuffle).count

/-- The pair loop of `ExtractionRunner.run`: check the cancel flag, process
the pair (skipped under dry-run), then emit progress, cumulative stats and —
when an image was loaded — the preview; after the last pair emit the success
done-signal.  `int(100 * processed / total)` is modelled as `Nat` division
(both are nonnegative, and `int()` truncates). -/
def runLoop (cfg : RunnerCfg) (shuffle : List (Nat × Nat) → List (Nat × Nat))
    (imagesCount totalPairs : Nat) (cancelAt : Nat → Bool) :
    Nat → Nat → List PairInput → List RunEvent
  | _, patchesTotal, [] =>
    [RunEvent.doneEmit true ("Done. Total patches: " ++ toString patchesTotal)]
  | processed, patchesTotal, p :: rest =>
    if cancelAt processed then [RunEvent.doneEmit false "Cancelled."]
    else
      (if cfg.dry_run then [] else [RunEvent.extractCall processed]) ++
      [RunEvent.progress (100 * (processed + 1) / totalPairs),
        RunEvent.statsEmit imagesCount totalPairs (processed + 1)
          (patchesTotal + (if cfg.dry_run then 0 else pairKept cfg shuffle p))
          (if cfg.dry_run then 0 else pairKept cfg shuffle p)] ++
      (if cfg.dry_run then [] else [RunEvent.previewEmit processed]) ++
      runLoop cfg shuffle imagesCount totalPairs cancelAt (processed + 1)
        (patchesTotal + (if cfg.dry_run then 0 else pairKept cfg shuffle p)) rest

/-- Model of `ExtractionRunner.run`: bail out with a failure done-signal when
no pairs were found (before creating any output directory), otherwise create
the two output directories (unless dry-run) and run the pair loop. -/
def runnerRun (cfg : RunnerCfg)
    (shuffle : List (Nat × Nat) → List (Nat × Nat))
    (imagesCount : Nat) (cancelAt : Nat → Bool)
    (pairs : List PairInput) : List RunEvent :=
  if pairs.length = 0 then
    [RunEvent.doneEmit false "No pairs to process."]
  else
    (if cfg.dry_run then [] else [RunEvent.mkdirOut 0, RunEvent.mkdirOut 1]) ++
    runLoop cfg shuffle imagesCount pairs.length cancelAt 0 0 pairs

/-- C6 theorem.  With zero pairs the runner emits exactly one event: the
failure done-signal with the no-pairs message — in particular it creates no
destination directory and processes no pair. -/
theorem runner_no_pairs (cfg : RunnerCfg)
    (shuffle : List (Nat × Nat) → List (Nat × Nat))
    (imagesCount : Nat) (cancelAt : Nat → Bool) :
    runnerRun cfg shuffle imagesCount cancelAt [] =
      [RunEvent.doneEmit false "No pairs to process."] ∧
    (∀ k, RunEvent.mkdirOut k ∉ runnerRun cfg shuffle imagesCount cancelAt []) ∧
    (∀ i, RunEvent.extractCall i ∉
      runnerRun cfg shuffle imagesCount cancelAt []) := by
  refine ⟨rfl, ?_, ?_⟩ <;> intro j h <;> simp [runnerRun] at h

/-- Cancellation behaviour of the pair loop.  If the cancel flag is false at
every iteration before `k`, true at `k`, and `k` falls inside the remaining
iterations, the loop ends with the cancellation done-signal and its trace
contains an `extractCall i` exactly for the already-processed pairs
`processed ≤ i < k` (none under dry-run). -/
lemma runLoop_cancel (cfg : RunnerCfg)
    (shuffle : List (Nat × Nat) → List (Nat × Nat))
    (ic tp : Nat) (cancelAt : Nat → Bool) :
    ∀ (rest : List PairInput) (processed patchesTotal k : Nat),
      (∀ j, processed ≤ j → j < k → cancelAt j = false) →
      cancelAt k = true → processed ≤ k → k < processed + rest.length →
      (runLoop cfg shuffle ic tp cancelAt processed patchesTotal rest).getLast?
          = some (RunEvent.doneEmit false "Cancelled.") ∧
      (∀ i, RunEvent.extractCall i ∈
          runLoop cfg shuffle ic tp cancelAt processed patchesTotal rest ↔
        (cfg.dry_run = false ∧ processed ≤ i ∧ i < k)) := by
  intro rest
  induction rest with
  | nil =>
    intro processed patchesTotal k h1 hk hpk hlt
    simp at hlt
    omega
  | cons p rest ih =>
    intro processed patchesTotal k h1 hk hpk hlt
    by_cases hpe : processed = k
    · subst hpe
      rw [runLoop, if_pos hk]
      refine ⟨rfl, ?_⟩
      intro i
      simp
    · have hplt : processed < k := lt_of_le_of_ne hpk hpe
      have hcp : cancelAt processed = false := h1 processed le_rfl hplt
      rw [runLoop, if_neg (by rw [hcp]; exact Bool.false_ne_true)]
      have hih := ih (processed + 1)
        (patchesTotal + (if cfg.dry_run then 0 else pairKept cfg shuffle p)) k
        (fun j hj hjk => h1 j (by omega) hjk) hk (by omega)
        (by simp at hlt; omega)
      have hne : runLoop cfg shuffle ic tp cancelAt (processed + 1)
          (patchesTotal + (if cfg.dry_run then 0 else pairKept cfg shuffle p))
          rest ≠ [] := by
        intro h
        rw [h] at hih
        simpa using hih.1
      constructor
      · rw [List.getLast?_append_of_ne_nil _ hne]
        exact hih.1
      · intro i
        rw [List.mem_append, List.mem_append, List.mem_append, hih.2 i]
        by_cases hd : cfg.dry_run
        · simp [hd]
        · simp [hd]
          omega

/-- C7 theorem.  Suppose `cancel()` has set the flag so that it is observed
(first) at the top of iteration `k`, with `k` less than the number of pairs.
Then the run's last emitted event is the failure done-signal with the
cancellation message, and the trace contains a processing call for pair `i`
exactly when `i < k` (and the run is not a dry run): pair `k` and all later
pairs are not processed, while the processing calls — and hence the patches
written — of all prior pairs remain in the trace (the model has no event
that removes written patches, matching the code, which never deletes
files). -/
theorem runner_cancel (cfg : RunnerCfg)
    (shuffle : List (Nat × Nat) → List (Nat × Nat))
    (ic : Nat) (cancelAt : Nat → Bool) (pairs : List PairInput) (k : Nat)
    (h1 : ∀ j, j < k → cancelAt j = false) (hk : cancelAt k = true)
    (hlt : k < pairs.length) :
    (runnerRun cfg shuffle ic cancelAt pairs).getLast?
        = some (RunEvent.doneEmit false "Cancelled.") ∧
    (∀ i, RunEvent.extractCall i ∈ runnerRun cfg shuffle ic cancelAt pairs ↔
      (cfg.dry_run = false ∧ i < k)) := by
  have hne : ¬ pairs.length = 0 := by omega
  have hloop := runLoop_cancel cfg shuffle ic pairs.length cancelAt pairs 0 0 k
    (fun j _ hj => h1 j hj) hk (Nat.zero_le k) (by omega)
  have hne2 : runLoop cfg shuffle ic pairs.length cancelAt 0 0 pairs ≠ [] := by
    intro h
    rw [h] at hloop
    simpa using hloop.1
  rw [runnerRun, if_neg hne]
  constructor
  · rw [List.getLast?_append_of_ne_nil _ hne2]
    exact hloop.1
  · intro i
    rw [List.mem_append, hloop.2 i]
    by_cases hd : cfg.dry_run
    · simp [hd]
    · simp [hd]

/-- Witness for the C7 theorem: three pairs of a 1×1 all-ones mask, the
cancel flag set from iteration 1 on; the runner processes only pair 0. -/
theorem runner_cancel_witness :
    (∀ j, j < 1 → (fun i => decide (1 ≤ i)) j = false) ∧
    (fun i => decide (1 ≤ i)) 1 = true ∧
    1 < ([⟨⟨1, 1, fun _ _ => true⟩, 1, 1⟩, ⟨⟨1, 1, fun _ _ => true⟩, 1, 1⟩,
      ⟨⟨1, 1, fun _ _ => true⟩, 1, 1⟩] : List PairInput).length ∧
    ((runnerRun ⟨1, 1, 0, 0, false, false, false⟩ (fun l => l) 3
        (fun i => decide (1 ≤ i))
        [⟨⟨1, 1, fun _ _ => true⟩, 1, 1⟩, ⟨⟨1, 1, fun _ _ => true⟩, 1, 1⟩,
          ⟨⟨1, 1, fun _ _ => true⟩, 1, 1⟩]).getLast?
        = some (RunEvent.doneEmit false "Cancelled.") ∧
    (∀ i, RunEvent.extractCall i ∈
        runnerRun ⟨1, 1, 0, 0, false, false, false⟩ (fun l => l) 3
          (fun i => decide (1 ≤ i))
          [⟨⟨1, 1, fun _ _ => true⟩, 1, 1⟩, ⟨⟨1, 1, fun _ _ => true⟩, 1, 1⟩,
            ⟨⟨1, 1, fun _ _ => true⟩, 1, 1⟩] ↔
      ((⟨1, 1, 0, 0, false, false, false⟩ : RunnerCfg).dry_run = false ∧
        i < 1))) :=
  ⟨by decide, by decide, by decide,
    runner_cancel ⟨1, 1, 0, 0, false, false, false⟩ (fun l => l) 3
      (fun i => decide (1 ≤ i))
      [⟨⟨1, 1, fun _ _ => true⟩, 1, 1⟩, ⟨⟨1, 1, fun _ _ => true⟩, 1, 1⟩,
        ⟨⟨1, 1, fun _ _ => true⟩, 1, 1⟩] 1
      (by decide) (by decide) (by decide)⟩

/-- Under dry-run and no cancellation, every event of the pair loop is a
progress emission, a cumulative stats emission with unchanged (zero-added)
patch totals, or the success done-signal — in particular no extraction call,
no preview, and no stats record with a negative field. -/
lemma runLoop_dry_events (cfg : RunnerCfg)
    (shuffle : List (Nat × Nat) → List (Nat × Nat))
    (ic tp : Nat) (hdry : cfg.dry_run = true) :
    ∀ (rest : List PairInput) (processed patchesTotal : Nat),
      ∀ e ∈ runLoop cfg shuffle ic tp (fun _ => false) processed patchesTotal
          rest,
        (∃ n : Nat, e = RunEvent.progress n) ∨
        (∃ c : Nat, e = RunEvent.statsEmit (ic : Int) (tp : Int) (c : Int)
          (patchesTotal : Int) 0) ∨
        (∃ s : String, e = RunEvent.doneEmit true s) := by
  intro rest
  induction rest with
  | nil =>
    intro processed patchesTotal e he
    rw [runLoop] at he
    rcases List.mem_singleton.mp he with rfl
    exact Or.inr (Or.inr ⟨_, rfl⟩)
  | cons p rest ih =>
    intro processed patchesTotal e he
    rw [runLoop, if_neg (by simp)] at he
    rw [hdry] at he
    simp only [if_true, List.nil_append, List.cons_append, List.nil_append,
      Nat.add_zero] at he
    rcases List.mem_cons.mp he with rfl | he'
    · exact Or.inl ⟨_, rfl⟩
    rcases List.mem_cons.mp he' with rfl | he'' 
    · exact Or.inr (Or.inl ⟨processed + 1, by push_cast; ring_nf⟩)
    · exact ih (processed + 1) patchesTotal e he''

/-- Under dry-run and no cancellation the loop still emits a progress event
for every remaining pair. -/
lemma runLoop_dry_progress (cfg : RunnerCfg)
    (shuffle : List (Nat × Nat) → List (Nat × Nat))
    (ic tp : Nat) (hdry : cfg.dry_run = true) :
    ∀ (rest : List PairInput) (processed patchesTotal n : Nat),
      processed ≤ n → n < processed + rest.length →
      RunEvent.progress (100 * (n + 1) / tp) ∈
        runLoop cfg shuffle ic tp (fun _ => false) processed patchesTotal
          rest := by
  intro rest
  induction rest with
  | nil =>
    intro processed patchesTotal n h1 h2
    simp at h2
    omega
  | cons p rest ih =>
    intro processed patchesTotal n h1 h2
    rw [runLoop, if_neg (by simp)]
    by_cases hn : n = processed
    · subst hn
      rw [hdry]
      simp
    · refine List.mem_append.mpr (Or.inr ?_)
      refine ih (processed + 1) _ n (by omega) (by simp at h2; omega)

/-- C8 theorem (amended).  When the dry-run flag is set (and no cancellation
occurs), the runner performs no extraction call (hence no cropping and no
writing), creates no output directory, emits no preview, still emits a
progress percentage for every pair, and every cumulative stats record it
emits has nonnegative fields with zero patch totals — the all-negative
sentinel record built in the dry-run branch of the source is assigned to a
local variable and never emitted. -/
theorem runner_dry_run (cfg : RunnerCfg)
    (shuffle : List (Nat × Nat) → List (Nat × Nat))
    (ic : Nat) (pairs : List PairInput) (hdry : cfg.dry_run = true) :
    (∀ i, RunEvent.extractCall i ∉
      runnerRun cfg shuffle ic (fun _ => false) pairs) ∧
    (∀ i, RunEvent.previewEmit i ∉
      runnerRun cfg shuffle ic (fun _ => false) pairs) ∧
    (∀ j, RunEvent.mkdirOut j ∉
      runnerRun cfg shuffle ic (fun _ => false) pairs) ∧
    (∀ n, n < pairs.length →
      RunEvent.progress (100 * (n + 1) / pairs.length) ∈
        runnerRun cfg shuffle ic (fun _ => false) pairs) ∧
    (∀ a b c d e : Int, RunEvent.statsEmit a b c d e ∈
        runnerRun cfg shuffle ic (fun _ => false) pairs →
      0 ≤ a ∧ 0 ≤ b ∧ 0 ≤ c ∧ d = 0 ∧ e = 0) := by
  by_cases hnil : pairs.length = 0
  · rw [runnerRun, if_pos hnil]
    refine ⟨?_, ?_, ?_, ?_, ?_⟩
    · intro i h; simp at h
    · intro i h; simp at h
    · intro j h; simp at h
    · intro n hn; omega
    · intro a b c d e h; simp at h
  · rw [runnerRun, if_neg hnil, hdry]
    simp only [if_true, List.nil_append]
    refine ⟨?_, ?_, ?_, ?_, ?_⟩
    · intro i h
      rcases runLoop_dry_events cfg shuffle ic pairs.length hdry pairs 0 0 _ h
        with ⟨n, he⟩ | ⟨c, he⟩ | ⟨s, he⟩ <;> cases he
    · intro i h
      rcases runLoop_dry_events cfg shuffle ic pairs.length hdry pairs 0 0 _ h
        with ⟨n, he⟩ | ⟨c, he⟩ | ⟨s, he⟩ <;> cases he
    · intro j h
      rcases runLoop_dry_events cfg shuffle ic pairs.length hdry pairs 0 0 _ h
        with ⟨n, he⟩ | ⟨c, he⟩ | ⟨s, he⟩ <;> cases he
    · intro n hn
      exact runLoop_dry_progress cfg shuffle ic pairs.length hdry pairs 0 0 n
        (Nat.zero_le n) (by omega)
    · intro a b c d e h
      rcases runLoop_dry_events cfg shuffle ic pairs.length hdry pairs 0 0 _ h
        with ⟨n, he⟩ | ⟨c', he⟩ | ⟨s, he⟩
      · cases he
      · injection he with h1 h2 h3 h4 h5
        refine ⟨?_, ?_, ?_, ?_, ?_⟩
        · rw [h1]; exact Int.natCast_nonneg ic
        · rw [h2]; exact Int.natCast_nonneg pairs.length
        · rw [h3]; exact Int.natCast_nonneg c'
        · rw [h4]; rfl
        · rw [h5]
      · cases he

/-- Witness for the amended C8 theorem: one pair, dry-run enabled. -/
theorem runner_dry_run_witness :
    (⟨1, 1, 0, 0, true, true, true⟩ : RunnerCfg).dry_run = true ∧
    ((∀ i, RunEvent.extractCall i ∉
      runnerRun ⟨1, 1, 0, 0, true, true, true⟩ (fun l => l) 1 (fun _ => false)
        [⟨⟨1, 1, fun _ _ => true⟩, 1, 1⟩]) ∧
    (∀ i, RunEvent.previewEmit i ∉
      runnerRun ⟨1, 1, 0, 0, true, true, true⟩ (fun l => l) 1 (fun _ => false)
        [⟨⟨1, 1, fun _ _ => true⟩, 1, 1⟩]) ∧
    (∀ j, RunEvent.mkdirOut j ∉
      runnerRun ⟨1, 1, 0, 0, true, true, true⟩ (fun l => l) 1 (fun _ => false)
        [⟨⟨1, 1, fun _ _ => true⟩, 1, 1⟩]) ∧
    (∀ n, n < ([⟨⟨1, 1, fun _ _ => true⟩, 1, 1⟩] : List PairInput).length →
      RunEvent.progress (100 * (n + 1) /
          ([⟨⟨1, 1, fun _ _ => true⟩, 1, 1⟩] : List PairInput).length) ∈
        runnerRun ⟨1, 1, 0, 0, true, true, true⟩ (fun l => l) 1 (fun _ => false)
          [⟨⟨1, 1, fun _ _ => true⟩, 1, 1⟩]) ∧
    (∀ a b c d e : Int, RunEvent.statsEmit a b c d e ∈
        runnerRun ⟨1, 1, 0, 0, true, true, true⟩ (fun l => l) 1 (fun _ => false)
          [⟨⟨1, 1, fun _ _ => true⟩, 1, 1⟩] →
      0 ≤ a ∧ 0 ≤ b ∧ 0 ≤ c ∧ d = 0 ∧ e = 0)) :=
  ⟨rfl, runner_dry_run ⟨1, 1, 0, 0, true, true, true⟩ (fun l => l) 1
    [⟨⟨1, 1, fun _ _ => true⟩, 1, 1⟩] rfl⟩

/-- A stats emission whose five fields are all negative, as the sentinel
record `{"total_coords": -1, "kept": -1, "coverage_mean": -1.0}` would be if
it were emitted. -/
def allNegStats : RunEvent → Bool
  | RunEvent.statsEmit a b c d e =>
    decide (a < 0) && decide (b < 0) && decide (c < 0) && decide (d < 0) &&
      decide (e < 0)
  | _ => false

/-- Counterexample to C8 as stated.  In a dry run over one pair the runner
emits no statistics record with all fields negative: the sentinel record is
constructed in the source but never passed to any signal; the emitted
cumulative stats carry nonnegative counts. -/
theorem runner_dry_sentinel_counterexample :
    ¬ ∃ e ∈ runnerRun ⟨1, 1, 0, 0, true, true, true⟩ (fun l => l) 1
        (fun _ => false) [⟨⟨1, 1, fun _ _ => true⟩, 1, 1⟩],
      allNegStats e = true := by
  decide
